import Mathlib

/-!
Verification development for the serp-it search aggregation / rendering server.

The TypeScript sources are shallowly embedded as executable Lean definitions:
  * `src/PdfParser.ts` — paragraph dedup and extraction-merge heuristic
    (`normalizeForComparison`, `deduplicateContent`, `mergeExtractions`);
  * `src/SearchAggregator.ts` — URL sanitization, result merging and the
    multi-engine fan-out (`sanitizeUrl`, `mergeResult`, `searchAllEngines`);
  * `src/BrowserPool.ts` — the pooled browser acquire/release state machine;
  * `src/PageRenderer.ts` — the bounded retry loop of `renderPageToMarkdown`;
  * `src/index.ts` — the output truncation (`truncateMarkdown`).

JavaScript strings are modelled as Lean `String` (a list of characters);
`String.prototype.toLowerCase`, `trim`, and the regexes used by the code
(`/\s+/`, `/\n\n+/`, `/[^a-z0-9]/g`, `/\/+$/`) are modelled character by
character for the ASCII range, which is the range the code's own regexes
single out.  JavaScript float arithmetic `ocrWords > textWords * 1.5` is
modelled exactly on integers as `2 * ocrWords > 3 * textWords` (both sides
of the JS comparison are exactly representable doubles).
-/

set_option maxRecDepth 40000

/-- ASCII model of `String.prototype.toLowerCase` on one character:
letters `A`–`Z` (codes 65–90) are shifted by 32, everything else is kept. -/
def lowerChar (c : Char) : Char :=
  if 65 ≤ c.toNat ∧ c.toNat ≤ 90 then Char.ofNat (c.toNat + 32) else c

/-- `toLowerCase` of a whole string. -/
def strLower (s : String) : String :=
  String.mk (s.data.map lowerChar)

/-- Characters matched by the JS whitespace class `\s` (ASCII part):
space, tab, newline, carriage return, vertical tab, form feed. -/
def jsIsSpace (c : Char) : Bool :=
  [' ', '\t', '\n', '\r', '\x0b', '\x0c'].contains c

/-- Model of `String.prototype.trim`: whitespace removed from both ends. -/
def jsTrim (s : String) : String :=
  String.mk (((s.data.dropWhile jsIsSpace).reverse.dropWhile jsIsSpace).reverse)

/-- Trimmed length of a string, the quantity `s.trim().length` that the
merge heuristic branches on. -/
def trimLen (s : String) : Nat :=
  (jsTrim s).length

/-- State machine implementing JS `String.prototype.split` with a
"one or more separator characters" regex such as `/\s+/`.
`acc` holds the current token reversed; `skipping` is true while we are
inside a separator run.  Matches JS semantics including the empty tokens
produced by leading and trailing separator runs. -/
def splitRunsGo (isSep : Char → Bool) : List Char → List Char → Bool → List (List Char)
  | [], _, true => [[]]
  | [], acc, false => [acc.reverse]
  | c :: rest, acc, true =>
    if isSep c then splitRunsGo isSep rest acc true
    else splitRunsGo isSep rest [c] false
  | c :: rest, acc, false =>
    if isSep c then acc.reverse :: splitRunsGo isSep rest [] true
    else splitRunsGo isSep rest (c :: acc) false

/-- Model of `text.split(/\s+/)`. -/
def jsSplitWs (s : String) : List String :=
  (splitRunsGo jsIsSpace s.data [] false).map String.mk

/-- State machine implementing `String.prototype.split(/\n\n+/)`:
tokens are separated by runs of two or more newline characters; a single
newline is ordinary content.  `mode` 0 = normal, 1 = just saw one newline,
2 = inside a confirmed separator run. -/
def splitBlankGo : List Char → List Char → Nat → List (List Char)
  | [], acc, mode =>
    if mode = 1 then [(('\n' :: acc).reverse)]
    else if mode = 2 then [[]]
    else [acc.reverse]
  | c :: rest, acc, mode =>
    if mode = 2 then
      if c = '\n' then splitBlankGo rest acc 2
      else splitBlankGo rest [c] 0
    else if mode = 1 then
      if c = '\n' then acc.reverse :: splitBlankGo rest [] 2
      else splitBlankGo rest (c :: '\n' :: acc) 0
    else
      if c = '\n' then splitBlankGo rest acc 1
      else splitBlankGo rest (c :: acc) 0

/-- Model of `text.split(/\n\n+/)`. -/
def splitBlankParas (s : String) : List String :=
  (splitBlankGo s.data [] 0).map String.mk

/-- Characters kept by `replace(/[^a-z0-9]/g, '')`: lowercase ASCII letters
and digits. -/
def isLowerAlnum (c : Char) : Bool :=
  decide ((97 ≤ c.toNat ∧ c.toNat ≤ 122) ∨ (48 ≤ c.toNat ∧ c.toNat ≤ 57))

/-- `PdfParser.normalizeForComparison`: lower-case, strip every character
outside `[a-z0-9]`, keep the first 100 characters. -/
def normalizeForComparison (text : String) : String :=
  String.mk (((text.data.map lowerChar).filter isLowerAlnum).take 100)

/-- The separator the code inserts before unique OCR paragraphs. -/
def additionalContentMarker : String :=
  "\n\n---\n*Additional content extracted from images:*\n\n"

/-- Paragraph list as the code computes it:
`content.split(/\n\n+/).filter((p) => p.trim())`. -/
def codeParagraphs (content : String) : List String :=
  (splitBlankParas content).filter (fun p => jsTrim p != "")

/-- `PdfParser.deduplicateContent`: the normalized paragraphs of
`textContent` form the `seen` set; a paragraph of `ocrContent` is kept when
its normalization is longer than 20 characters and not in `seen`; kept
paragraphs are appended after `textContent` under the marker, and when none
is kept `textContent` is returned unchanged. -/
def deduplicateContent (textContent ocrContent : String) : String :=
  let paragraphs1 := codeParagraphs textContent
  let paragraphs2 := codeParagraphs ocrContent
  let seen := paragraphs1.map normalizeForComparison
  let uniqueOcr := paragraphs2.filter (fun p =>
    let normalized := normalizeForComparison p
    decide (normalized.length > 20) && !(seen.contains normalized))
  if uniqueOcr.isEmpty then textContent
  else textContent ++ additionalContentMarker ++ String.intercalate "\n\n" uniqueOcr

/-- The placeholder returned when neither extraction produced content. -/
def noContentPlaceholder : String :=
  "*No content could be extracted from this PDF.*"

/-- `PdfParser.mergeExtractions`.  `textContent.split(/\s+/).length` is the
JS word count; `ocrWords > textWords * 1.5` is modelled exactly as
`2 * ocrWords > 3 * textWords`. -/
def mergeExtractions (textContent ocrContent : String) : String :=
  let textLength := trimLen textContent
  let ocrLength := trimLen ocrContent
  if textLength > 500 then
    let textWords := (jsSplitWs textContent).length
    let ocrWords := (jsSplitWs ocrContent).length
    if 2 * ocrWords > 3 * textWords ∧ ocrLength > 200 then
      deduplicateContent textContent ocrContent
    else
      textContent
  else if textLength > 0 ∧ ocrLength > 0 then
    if ocrLength > 2 * textLength then deduplicateContent ocrContent textContent
    else deduplicateContent textContent ocrContent
  else if ocrLength > 0 then ocrContent
  else if textLength > 0 then textContent
  else noContentPlaceholder

/-- `index.ts` `truncateMarkdown` with its `limit` parameter explicit
(the call sites use the default `40_000`). -/
def truncateMarkdown (markdown : String) (limit : Nat) : String :=
  if markdown.length ≤ limit then markdown
  else String.mk (markdown.data.take limit) ++ "\n\n... (truncated)"

/-!  Specification-level restatement of the unique-paragraph dedup, written
from the spec's own words (§4.4 item 4): split both texts on blank-line
boundaries, normalize by lower-casing / stripping non-alphanumerics /
truncating to 100 characters, and keep a secondary paragraph exactly when
its normalization is longer than 20 characters and absent from the primary
text's normalized-paragraph set.  Used to compare the code's
`deduplicateContent` against the spec. -/

/-- Unique secondary paragraphs, per the spec's words (the spec does not
mention the code's extra `filter((p) => p.trim())`, which turns out not to
change the kept set). -/
def specUniqueParas (primary secondary : String) : List String :=
  (splitBlankParas secondary).filter (fun p =>
    decide ((normalizeForComparison p).length > 20 ∧
      normalizeForComparison p ∉ (splitBlankParas primary).map normalizeForComparison))

/-- Dedup output per the spec's words: unique secondary paragraphs appended
after the primary text under the additional-content section, primary text
unchanged when none is unique. -/
def specDedup (primary secondary : String) : String :=
  match specUniqueParas primary secondary with
  | [] => primary
  | ps => primary ++ additionalContentMarker ++ String.intercalate "\n\n" ps

/-!  URL model.  `SearchAggregator.sanitizeUrl` relies on the WHATWG `URL`
class.  We model the fragment of its behavior exercised by http(s) URLs
with a plain `host[/path][?query][#fragment]` shape: the scheme and host
are case-folded by the parser, the path / query / fragment keep their
case and spelling, parsing fails when the authority is empty, and an empty
path serializes as `/`.  (Userinfo, port normalization, percent-encoding
and `\` handling are outside the model; none of the frozen claims depend
on them.) -/

structure JsUrl where
  scheme : String
  host : String
  pathname : String
  search : String
  hash : String
deriving DecidableEq, Repr

/-- Serialization (`URL.prototype.toString`) for the modelled shape. -/
def urlToString (u : JsUrl) : String :=
  u.scheme ++ "://" ++ u.host ++ u.pathname ++ u.search ++ u.hash

/-- Characters ending the authority component. -/
def isAuthorityEnd (c : Char) : Bool :=
  c = '/' || c = '?' || c = '#'

/-- Model of `new URL(t)` for strings that begin with `http://` or
`https://` up to letter case; any other string is outside the model and
fails (the code only parses strings that passed its scheme regex). -/
def jsUrlParse (t : String) : Option JsUrl :=
  let l := t.data
  let low := l.map lowerChar
  let rest? : Option (String × List Char) :=
    if low.take 8 = "https://".data then some ("https", l.drop 8)
    else if low.take 7 = "http://".data then some ("http", l.drop 7)
    else none
  match rest? with
  | none => none
  | some (scheme, rest) =>
    let auth := rest.takeWhile (fun c => !(isAuthorityEnd c))
    if auth.isEmpty then none
    else
      let afterAuth := rest.drop auth.length
      let path := afterAuth.takeWhile (fun c => !(c = '?' || c = '#'))
      let afterPath := afterAuth.drop path.length
      let search := afterPath.takeWhile (fun c => !(c = '#'))
      let hash := afterPath.drop search.length
      some
        { scheme := scheme
          host := String.mk (auth.map lowerChar)
          pathname := if path.isEmpty then "/" else String.mk path
          search := String.mk search
          hash := String.mk hash }

/-- The test `/^https?:\/\//i.test(t)`. -/
def httpSchemeTest (t : String) : Bool :=
  let low := t.data.map lowerChar
  low.take 7 = "http://".data || low.take 8 = "https://".data

/-- `pathname.replace(/\/+$/, '')`: every trailing slash removed. -/
def stripTrailingSlashes (p : String) : String :=
  String.mk (p.data.reverse.dropWhile (fun c => c = '/')).reverse

/-- Effect of `parsed.pathname = parsed.pathname.replace(/\/+$/, '')` when
`parsed.pathname !== '/'`: the WHATWG pathname setter turns the empty
string back into `/` for http(s) URLs. -/
def normalizePathname (p : String) : String :=
  if p = "/" then p
  else
    let stripped := stripTrailingSlashes p
    if stripped = "" then "/" else stripped

/-- Resolution of a scheme-relative URL: `trimmed.startsWith('//')`
prefixes `https:`. -/
def resolveSchemeRelative (trimmed : String) : String :=
  if trimmed.data.take 2 = ['/', '/'] then "https:" ++ trimmed else trimmed

/-- The `{key, href}` pair produced by `sanitizeUrl`. -/
structure SanitizedUrl where
  key : String
  href : String
deriving DecidableEq, Repr

/-- `sanitizeUrl` up to the normalized `URL` object. -/
def sanitizeUrlCore (rawUrl : String) : Option JsUrl :=
  if rawUrl = "" then none
  else if jsTrim rawUrl = "" then none
  else if !(httpSchemeTest (resolveSchemeRelative (jsTrim rawUrl))) then none
  else
    match jsUrlParse (resolveSchemeRelative (jsTrim rawUrl)) with
    | none => none
    | some parsed =>
      some { parsed with hash := "", pathname := normalizePathname parsed.pathname }

/-- `SearchAggregator.sanitizeUrl`: reject empty / whitespace-only input,
resolve a scheme-relative `//` prefix to `https`, require an
`http(s)://` scheme, parse, drop the fragment, strip trailing slashes from
non-root paths; the dedup `key` is the lower-cased serialized form, the
display `href` is the serialized form itself. -/
def sanitizeUrl (rawUrl : String) : Option SanitizedUrl :=
  (sanitizeUrlCore rawUrl).map (fun u =>
    let href := urlToString u
    { key := strLower href, href := href })

/-!  Result aggregation (`SearchAggregator.ts`). -/

/-- `SearchResult` (`src/SearchResult.ts`): an immutable
title / url / snippet triple. -/
structure SearchResult where
  title : String
  url : String
  snippet : String
deriving DecidableEq, Repr

/-- `AggregatedResult`. -/
structure AggregatedResult where
  title : String
  url : String
  snippet : String
  sources : List String
deriving DecidableEq, Repr

/-- The accumulator `Map<string, AggregatedResult>`: an insertion-ordered
association list, as a JS `Map` is. -/
abbrev AccMap : Type := List (String × AggregatedResult)

/-- `accumulator.get(key)`. -/
def accGet (m : AccMap) (key : String) : Option AggregatedResult :=
  (List.find? (fun p => p.1 == key) m).map (fun p => p.2)

/-- In-place mutation of the record stored under `key` (JS object mutation
through the reference held by the map; iteration order is unchanged). -/
def accUpdate (m : AccMap) (key : String) (v : AggregatedResult) : AccMap :=
  m.map (fun p => if p.1 == key then (p.1, v) else p)

/-- The mutations `mergeResult` applies to an existing record: append the
source if absent, then backfill `snippet` and `title` when the existing
field is empty and the incoming one is not. -/
def updateExisting (e : AggregatedResult) (incoming : SearchResult) (source : String) :
    AggregatedResult :=
  let e := if e.sources.contains source then e
    else { e with sources := e.sources ++ [source] }
  let e := if e.snippet = "" ∧ incoming.snippet ≠ "" then { e with snippet := incoming.snippet }
    else e
  if e.title = "" ∧ incoming.title ≠ "" then { e with title := incoming.title } else e

/-- The record `mergeResult` inserts for a fresh key.  (`incoming.title ??
sanitized.href` can only fall back to the href when `title` is nullish,
which the `SearchResult` type rules out, so the title is used as is.) -/
def freshRecord (su : SanitizedUrl) (incoming : SearchResult) (source : String) :
    AggregatedResult :=
  { title := incoming.title, url := su.href, snippet := incoming.snippet, sources := [source] }

/-- `SearchAggregator.mergeResult`. -/
def mergeResult (acc : AccMap) (incoming : SearchResult) (source : String) : AccMap :=
  match sanitizeUrl incoming.url with
  | none => acc
  | some su =>
    match accGet acc su.key with
    | some existing => accUpdate acc su.key (updateExisting existing incoming source)
    | none => acc ++ [(su.key, freshRecord su incoming source)]

/-- Merging a list of `(result, sourceName)` pairs left to right — the
inner `for (const result of results)` loop. -/
def insertPairs (acc : AccMap) : List (SearchResult × String) → AccMap
  | [] => acc
  | (r, n) :: ps => insertPairs (mergeResult acc r n) ps

/-- Outcome of one engine's `search` call: a result list, or a thrown
error message. -/
abbrev EngineOutcome : Type := Except String (List SearchResult)

/-- The fixed registration order of the `engines` array. -/
def engineNames : List String :=
  ["AOL", "Brave", "Bing", "DuckDuckGo", "Yahoo", "Startpage", "Yandex"]

/-- The sequential `for (const { name, engine } of engines)` loop of
`searchAllEngines`, with each engine's behavior abstracted as `outcome`:
a failing engine appends `name + ": " + message` to the error list, a
successful one merges its results. -/
def runEngines (outcome : String → EngineOutcome) (acc : AccMap) (errs : List String) :
    List String → AccMap × List String
  | [] => (acc, errs)
  | n :: ns =>
    match outcome n with
    | Except.ok results => runEngines outcome (insertPairs acc (results.map (fun r => (r, n)))) errs ns
    | Except.error msg => runEngines outcome acc (errs ++ [n ++ ": " ++ msg]) ns

/-- The `{results, engineErrors}` value returned by `searchAllEngines`. -/
structure AggregatedSearch where
  results : List AggregatedResult
  engineErrors : List String
deriving DecidableEq, Repr

/-- `SearchAggregator.searchAllEngines`. -/
def searchAllEngines (outcome : String → EngineOutcome) : AggregatedSearch :=
  let st := runEngines outcome [] [] engineNames
  { results := st.1.map (fun p => p.2), engineErrors := st.2 }

/-- All `(result, sourceName)` pairs the loop feeds to `mergeResult` while
iterating over `names`, in order: each successful engine's results in their
returned order; failed engines contribute nothing. -/
def incomingPairsOver (outcome : String → EngineOutcome) (names : List String) :
    List (SearchResult × String) :=
  names.foldr (fun n rest =>
    (match outcome n with
     | Except.ok rs => rs.map (fun r => (r, n))
     | Except.error _ => []) ++ rest) []

/-- The pairs fed to `mergeResult` by a full `searchAllEngines` run. -/
def incomingPairs (outcome : String → EngineOutcome) : List (SearchResult × String) :=
  incomingPairsOver outcome engineNames

/-- The error-list entry contributed by engine `n`: `name + ": " + message`
when its `search` throws, nothing when it succeeds. -/
def engineErrorEntry (outcome : String → EngineOutcome) (n : String) : Option String :=
  match outcome n with
  | Except.ok _ => none
  | Except.error m => some (n ++ ": " ++ m)

/-- The effect of merging one pair on the record stored under its own
dedup key: a fresh record when the key was absent, `updateExisting`
otherwise; pairs with unsanitizable URLs change nothing. -/
def applyPair (o : Option AggregatedResult) (p : SearchResult × String) :
    Option AggregatedResult :=
  match sanitizeUrl p.1.url with
  | none => o
  | some su =>
    some (match o with
      | some e => updateExisting e p.1 p.2
      | none => freshRecord su p.1 p.2)

/-- The pairs whose sanitized URL has dedup key `key`. -/
def matchingPairs (key : String) (ps : List (SearchResult × String)) :
    List (SearchResult × String) :=
  ps.filter (fun p => (sanitizeUrl p.1.url).map (fun su => su.key) == some key)

/-- First non-empty string of a list, or `""`: the value a
first-non-empty-wins backfill converges to. -/
def firstNonEmpty (xs : List String) : String :=
  (xs.find? (fun x => x != "")).getD ""

/-- Order-preserving dedup of source names: each name kept at its first
occurrence, seeded with the names already present. -/
def dedupSources (seen : List String) : List String → List String
  | [] => seen
  | x :: xs => dedupSources (if seen.contains x then seen else seen ++ [x]) xs

/-- Decidable equality of engine outcomes, used to evaluate the model on
concrete outcome assignments. -/
instance exceptDecEq {e a : Type} [DecidableEq e] [DecidableEq a] : DecidableEq (Except e a)
  | Except.error e1, Except.error e2 =>
    if h : e1 = e2 then isTrue (by rw [h]) else isFalse (fun hc => h (by injection hc))
  | Except.error _, Except.ok _ => isFalse (fun hc => Except.noConfusion hc)
  | Except.ok _, Except.error _ => isFalse (fun hc => Except.noConfusion hc)
  | Except.ok a1, Except.ok a2 =>
    if h : a1 = a2 then isTrue (by rw [h]) else isFalse (fun hc => h (by injection hc))

/-- A sample per-engine outcome assignment: AOL and Brave return one
result each (whose URLs sanitize to the same dedup key), every other
engine fails. -/
def sampleOutcomeA : String → EngineOutcome := fun n =>
  if n = "AOL" then
    Except.ok [{ title := "T1", url := "https://a.com/x", snippet := "" }]
  else if n = "Brave" then
    Except.ok [{ title := "T2", url := "https://A.com/x/", snippet := "s2" }]
  else Except.error "down"

/-- An outcome assignment that agrees with `sampleOutcomeA` on every
registered engine but differs on a name outside the registration list. -/
def sampleOutcomeB : String → EngineOutcome := fun n =>
  if n = "Qwant" then Except.ok [] else sampleOutcomeA n

/-!  Browser pool (`BrowserPool.ts`).  `acquire()` runs synchronously up to
its first `await`: it scans the pool for a free entry (marking it in-use
and returning it), otherwise compares `pool.length` against `maxSize`, and
either suspends at `await chromium.launch(...)` — the `pool.push` happens
only after the launch resolves — or enters the 100 ms polling wait.  The
model makes that suspension point explicit: `acquireSync` is the
synchronous prefix, `finishLaunch` is the continuation that runs when the
launch resolves. -/

/-- Pool state: the `inUse` flag of each pooled browser in pool order, plus
a counter of completed `chromium.launch` calls. -/
structure PoolState where
  flags : List Bool
  launches : Nat
deriving DecidableEq, Repr

/-- What the synchronous prefix of `acquire()` did. -/
inductive AcquireOutcome where
  | reused : AcquireOutcome
  | launching : AcquireOutcome
  | waiting : AcquireOutcome
deriving DecidableEq, Repr

/-- `this.pool.find(pb => !pb.inUse)` plus the in-place `inUse = true`:
returns the flag list with the first free slot marked, or `none` when
every pooled browser is in use. -/
def markFirstFree : List Bool → Option (List Bool)
  | [] => none
  | b :: rest =>
    if b then (markFirstFree rest).map (fun r => b :: r)
    else some (true :: rest)

/-- The synchronous prefix of `BrowserPool.acquire`. -/
def acquireSync (maxSize : Nat) (s : PoolState) : AcquireOutcome × PoolState :=
  match markFirstFree s.flags with
  | some flags => (AcquireOutcome.reused, { s with flags := flags })
  | none =>
    if s.flags.length < maxSize then (AcquireOutcome.launching, s)
    else (AcquireOutcome.waiting, s)

/-- The continuation after `await chromium.launch(...)` resolves:
`this.pool.push({browser, inUse: true, lastUsed: now})`. -/
def finishLaunch (s : PoolState) : PoolState :=
  { flags := s.flags ++ [true], launches := s.launches + 1 }

/-- One complete sequential `acquire()` on a pool with free capacity:
the synchronous prefix followed, when it suspended at the launch, by the
launch continuation. -/
def acquireSequential (maxSize : Nat) (s : PoolState) : AcquireOutcome × PoolState :=
  let (o, s') := acquireSync maxSize s
  (o, if o = AcquireOutcome.launching then finishLaunch s' else s')

/-!  Render pipeline (`PageRenderer.ts`).  `renderPageToMarkdown` first
routes PDF URLs to `parsePdfFromUrl`; otherwise it runs up to
`MAX_ATTEMPTS = 3` attempts, sleeping `250 * (attempt + 1)` ms after every
failed attempt that is not the last, and finally rethrows the last
recorded error.  Each attempt's navigate/convert work is abstracted as
`outcome : Nat → Except String PageRenderResult`; the model returns the
result together with the total backoff waited. -/

/-- `MAX_ATTEMPTS` of `PageRenderer.ts`. -/
def MAX_ATTEMPTS : Nat := 3

/-- `PageRenderResult` of `PageRenderer.ts`. -/
structure PageRenderResult where
  html : String
  markdown : String
deriving DecidableEq, Repr

/-- The retry loop over the remaining attempt indices: on success return
the result and the backoff accumulated so far; on failure record the error,
back off `250 * (attempt + 1)` ms when further attempts remain, and
continue; when no attempts remain fail with the last recorded error. -/
def renderGo (outcome : Nat → Except String PageRenderResult) (delayAcc : Nat)
    (lastError : Option String) : List Nat → Except String PageRenderResult × Nat
  | [] => (Except.error (lastError.getD "Unknown error rendering url"), delayAcc)
  | a :: rest =>
    match outcome a with
    | Except.ok r => (Except.ok r, delayAcc)
    | Except.error e =>
      renderGo outcome (if rest.isEmpty then delayAcc else delayAcc + 250 * (a + 1))
        (some e) rest

/-- `renderPageToMarkdown`: PDF URLs go to the document-extraction path
(no pooling, no retry; its error is wrapped as `PDF rendering failed:`),
every other URL runs the retry loop over attempts `0, 1, 2`. -/
def renderPageToMarkdown (isPdf : Bool) (pdfOutcome : Except String String)
    (outcome : Nat → Except String PageRenderResult) :
    Except String PageRenderResult × Nat :=
  if isPdf then
    (match pdfOutcome with
     | Except.ok md => Except.ok { html := "", markdown := md }
     | Except.error m => Except.error ("PDF rendering failed: " ++ m), 0)
  else
    renderGo outcome 0 none (List.range MAX_ATTEMPTS)

/-!  Helper lemmas. -/

theorem mk_eq_empty {l : List Char} : String.mk l = "" ↔ l = [] := by
  constructor
  · intro h
    exact congrArg String.data h
  · intro h
    rw [h]

theorem allSpace_of_trim_empty {s : String} (h : jsTrim s = "") :
    ∀ c ∈ s.data, jsIsSpace c = true := by
  unfold jsTrim at h
  have h1 := mk_eq_empty.mp h
  have h2 : (s.data.dropWhile jsIsSpace).reverse.dropWhile jsIsSpace = [] := by
    simpa using congrArg List.reverse h1
  have h4 : ∀ c ∈ s.data.dropWhile jsIsSpace, jsIsSpace c := by
    intro c hc
    exact List.dropWhile_eq_nil_iff.mp h2 c (List.mem_reverse.mpr hc)
  intro c hc
  rw [← List.takeWhile_append_dropWhile (p := jsIsSpace) (l := s.data)] at hc
  rcases List.mem_append.mp hc with h | h
  · exact List.mem_takeWhile_imp h
  · exact h4 c h

theorem norm_empty_of_trim_empty {s : String} (h : jsTrim s = "") :
    normalizeForComparison s = "" := by
  have hs := allSpace_of_trim_empty h
  unfold normalizeForComparison
  rw [mk_eq_empty]
  have hf : (s.data.map lowerChar).filter isLowerAlnum = [] := by
    rw [List.filter_eq_nil_iff]
    intro a ha
    rcases List.mem_map.mp ha with ⟨c, hc, rfl⟩
    have hsp := hs c hc
    have hmem : c ∈ [' ', '\t', '\n', '\r', '\x0b', '\x0c'] := by
      simpa [jsIsSpace] using hsp
    fin_cases hmem <;> decide
  rw [hf]
  rfl

theorem uniqueParas_eq_spec (primary secondary : String) :
    (codeParagraphs secondary).filter (fun p =>
      decide ((normalizeForComparison p).length > 20) &&
        !(((codeParagraphs primary).map normalizeForComparison).contains
          (normalizeForComparison p))) = specUniqueParas primary secondary := by
  unfold codeParagraphs specUniqueParas
  rw [List.filter_filter]
  apply List.filter_congr
  intro p _
  by_cases h20 : 20 < (normalizeForComparison p).length
  · have htrim : jsTrim p ≠ "" := by
      intro he
      rw [norm_empty_of_trim_empty he] at h20
      simp at h20
    have hmem : normalizeForComparison p ∈
          ((splitBlankParas primary).filter (fun q => jsTrim q != "")).map
            normalizeForComparison ↔
        normalizeForComparison p ∈ (splitBlankParas primary).map normalizeForComparison := by
      constructor
      · intro hin
        rcases List.mem_map.mp hin with ⟨q, hq, hq2⟩
        exact List.mem_map.mpr ⟨q, List.mem_of_mem_filter hq, hq2⟩
      · intro hin
        rcases List.mem_map.mp hin with ⟨q, hq, hq2⟩
        have hqt : jsTrim q ≠ "" := by
          intro he
          rw [norm_empty_of_trim_empty he] at hq2
          rw [← hq2] at h20
          simp at h20
        exact List.mem_map.mpr ⟨q, List.mem_filter.mpr ⟨hq, by simpa using hqt⟩, hq2⟩
    rw [Bool.eq_iff_iff]
    simp [htrim, h20, List.elem_eq_mem, hmem]
  · simp [h20]

theorem dedup_eq_specDedup (textContent ocrContent : String) :
    deduplicateContent textContent ocrContent = specDedup textContent ocrContent := by
  have hu := uniqueParas_eq_spec textContent ocrContent
  unfold deduplicateContent specDedup
  simp only []
  rw [hu]
  cases h : specUniqueParas textContent ocrContent with
  | nil => simp
  | cons a l => simp [String.intercalate]

/-!  Claim theorems. -/

/-- C8: for every primary and secondary text, the unique-paragraph dedup
splits both on blank-line boundaries, normalizes each paragraph by
lower-casing, stripping all non-alphanumeric characters and truncating to
100 characters, and keeps a secondary paragraph exactly when its normalized
form is longer than 20 characters and absent from the set of the primary
text's normalized paragraphs; when no secondary paragraph is kept the
primary text is returned unchanged.  `specDedup` / `specUniqueParas` are
the spec-level restatements; the code's `deduplicateContent` coincides with
them, and the kept paragraphs are characterized by the claimed iff. -/
theorem deduplicateContent_matches_spec (textContent ocrContent : String) :
    deduplicateContent textContent ocrContent = specDedup textContent ocrContent ∧
    (∀ p, p ∈ specUniqueParas textContent ocrContent ↔
      p ∈ splitBlankParas ocrContent ∧
        (normalizeForComparison p).length > 20 ∧
        normalizeForComparison p ∉
          (splitBlankParas textContent).map normalizeForComparison) ∧
    (specUniqueParas textContent ocrContent = [] →
      deduplicateContent textContent ocrContent = textContent) := by
  refine ⟨dedup_eq_specDedup textContent ocrContent, ?_, ?_⟩
  · intro p
    unfold specUniqueParas
    rw [List.mem_filter]
    simp
  · intro h
    rw [dedup_eq_specDedup textContent ocrContent]
    unfold specDedup
    rw [h]

/-- Witness for C8 at a concrete input: with identical one-paragraph texts
no secondary paragraph is unique, so the primary text is returned
unchanged. -/
theorem deduplicateContent_matches_spec_witness :
    deduplicateContent "A paragraph about browsers and pools."
        "A paragraph about browsers and pools." =
      "A paragraph about browsers and pools." :=
  (deduplicateContent_matches_spec _ _).2.2 (by decide)

/-- C9: rendered or extracted markdown of length at most 40000 characters
is returned unchanged by `truncateMarkdown`; longer text is cut to exactly
its first 40000 characters followed by the explicit truncation marker. -/
theorem truncateMarkdown_contract (s : String) :
    (s.length ≤ 40000 → truncateMarkdown s 40000 = s) ∧
    (40000 < s.length →
      truncateMarkdown s 40000 =
        String.mk (s.data.take 40000) ++ "\n\n... (truncated)") := by
  constructor
  · intro h
    rw [truncateMarkdown, if_pos h]
  · intro h
    rw [truncateMarkdown, if_neg (by omega)]

/-- Witness for C9: a short string passes through unchanged; a
40001-character string is cut at 40000 characters and marked. -/
theorem truncateMarkdown_contract_witness :
    truncateMarkdown "abc" 40000 = "abc" ∧
    truncateMarkdown (String.mk (List.replicate 40001 'x')) 40000 =
      String.mk ((String.mk (List.replicate 40001 'x')).data.take 40000) ++
        "\n\n... (truncated)" := by
  constructor
  · exact (truncateMarkdown_contract "abc").1 (by decide)
  · refine (truncateMarkdown_contract _).2 ?_
    have hl : (String.mk (List.replicate 40001 'x')).length = 40001 := by
      show (List.replicate 40001 'x').length = 40001
      rw [List.length_replicate]
    rw [hl]
    omega

/-- C1: the pool-size invariant fails on the code.  `acquire` checks
`pool.length < maxSize` before `await chromium.launch(...)` and pushes the
new entry only after the launch resolves, so when four callers invoke
`acquire()` concurrently on an empty pool with `maxSize = 3`, each caller's
synchronous prefix sees the still-empty pool and suspends at the launch
(`AcquireOutcome.launching`, state unchanged); no caller waits, four
launches complete, and the pool ends with 4 > 3 handles.  The last two
conjuncts show the claimed behavior does hold when the four acquires are
fully sequential, confirming that the concurrent interleaving is what
breaks the invariant. -/
theorem pool_capacity_race_c1 :
    acquireSync 3 { flags := [], launches := 0 } =
      (AcquireOutcome.launching, { flags := [], launches := 0 }) ∧
    (acquireSync 3 { flags := [], launches := 0 }).1 ≠ AcquireOutcome.waiting ∧
    (finishLaunch (finishLaunch (finishLaunch (finishLaunch
      { flags := [], launches := 0 })))).flags.length = 4 ∧
    (finishLaunch (finishLaunch (finishLaunch (finishLaunch
      { flags := [], launches := 0 })))).launches = 4 ∧
    ¬ ((finishLaunch (finishLaunch (finishLaunch (finishLaunch
      { flags := [], launches := 0 })))).flags.length ≤ 3) ∧
    (acquireSequential 3 (acquireSequential 3 (acquireSequential 3
      { flags := [], launches := 0 }).2).2).2 =
      { flags := [true, true, true], launches := 3 } ∧
    (acquireSync 3 { flags := [true, true, true], launches := 3 }).1 =
      AcquireOutcome.waiting := by
  decide

/-- C6: for a non-document URL the pipeline makes at most 3 attempts with
backoff `250 ms * attemptNumber` between consecutive attempts.  With the
first two attempts failing: a third successful attempt returns its result
after total backoff `250 + 500` ms, a third failure fails the call with
that last error after the same total backoff, and the outcome of the call
depends only on the first `MAX_ATTEMPTS = 3` attempt outcomes (no fourth
attempt is ever consulted). -/
theorem renderRetry_backoff_c6 (pdfOutcome : Except String String)
    (outcome : Nat → Except String PageRenderResult) (e0 e1 : String)
    (h0 : outcome 0 = Except.error e0) (h1 : outcome 1 = Except.error e1) :
    (∀ r, outcome 2 = Except.ok r →
      renderPageToMarkdown false pdfOutcome outcome = (Except.ok r, 250 + 500)) ∧
    (∀ e2, outcome 2 = Except.error e2 →
      renderPageToMarkdown false pdfOutcome outcome = (Except.error e2, 250 + 500)) ∧
    (∀ outcome2 : Nat → Except String PageRenderResult,
      (∀ k, k < MAX_ATTEMPTS → outcome2 k = outcome k) →
      renderPageToMarkdown false pdfOutcome outcome2 =
        renderPageToMarkdown false pdfOutcome outcome) := by
  have hrange : List.range MAX_ATTEMPTS = [0, 1, 2] := rfl
  refine ⟨?_, ?_, ?_⟩
  · intro r h2
    simp [renderPageToMarkdown, hrange, renderGo, h0, h1, h2]
  · intro e2 h2
    simp [renderPageToMarkdown, hrange, renderGo, h0, h1, h2]
  · intro outcome2 hagree
    have g0 : outcome2 0 = Except.error e0 := by rw [hagree 0 (by decide), h0]
    have g1 : outcome2 1 = Except.error e1 := by rw [hagree 1 (by decide), h1]
    have g2 : outcome2 2 = outcome 2 := hagree 2 (by decide)
    cases h2 : outcome 2 with
    | ok r =>
      simp [renderPageToMarkdown, hrange, renderGo, h0, h1, h2, g0, g1, g2]
    | error e2 =>
      simp [renderPageToMarkdown, hrange, renderGo, h0, h1, h2, g0, g1, g2]

/-- Witness for C6: a renderer failing twice then succeeding yields the
success after total backoff 750 ms. -/
theorem renderRetry_backoff_c6_witness :
    renderPageToMarkdown false (Except.error "unused")
        (fun k => if k = 2 then Except.ok { html := "h", markdown := "m" }
          else Except.error "nav timeout") =
      (Except.ok { html := "h", markdown := "m" }, 250 + 500) :=
  (renderRetry_backoff_c6 (Except.error "unused")
    (fun k => if k = 2 then Except.ok { html := "h", markdown := "m" }
      else Except.error "nav timeout")
    "nav timeout" "nav timeout" rfl rfl).1 _ rfl

/-- C2 counterexample: the claimed "if and only if" fails.  With a
501-character structured text of a single word and a 300-character
recognized text whose normalized form duplicates the structured text's
paragraph, the word-count condition holds (151 recognized words versus 1,
recognized trimmed length 299 > 200) yet no additional-content section is
appended: `deduplicateContent` finds no unique paragraph and the merged
output is exactly the structured text. -/
theorem mergeExtractions_c2_counterexample :
    trimLen (String.mk (List.replicate 501 'a')) > 500 ∧
    2 * (jsSplitWs (String.join (List.replicate 150 "a "))).length >
      3 * (jsSplitWs (String.mk (List.replicate 501 'a'))).length ∧
    trimLen (String.join (List.replicate 150 "a ")) > 200 ∧
    mergeExtractions (String.mk (List.replicate 501 'a'))
        (String.join (List.replicate 150 "a ")) =
      String.mk (List.replicate 501 'a') ∧
    ¬ additionalContentMarker.data <:+:
        (mergeExtractions (String.mk (List.replicate 501 'a'))
          (String.join (List.replicate 150 "a "))).data := by
  refine ⟨by decide, by decide, by decide, by decide, ?_⟩
  intro hinf
  have heq : mergeExtractions (String.mk (List.replicate 501 'a'))
      (String.join (List.replicate 150 "a ")) =
      String.mk (List.replicate 501 'a') := by decide
  rw [heq] at hinf
  have hstar : '*' ∈ additionalContentMarker.data := by decide
  have hmem : '*' ∈ (String.mk (List.replicate 501 'a')).data := hinf.subset hstar
  have : '*' = 'a' := List.eq_of_mem_replicate hmem
  simp at this

/-- C2 amended: for structured text of trimmed length above 500, the
merged output is `deduplicateContent` (equivalently the spec-level
`specDedup`, which appends the recognized text's unique paragraphs under
the additional-content section when at least one exists and returns the
structured text unchanged otherwise) exactly when the recognized word
count exceeds 1.5 times the structured word count and the recognized
trimmed length exceeds 200; otherwise the merged output is exactly the
structured text. -/
theorem mergeExtractions_over500_amended_c2 (t o : String) (h : trimLen t > 500) :
    mergeExtractions t o =
      if 2 * (jsSplitWs o).length > 3 * (jsSplitWs t).length ∧ trimLen o > 200 then
        specDedup t o
      else t := by
  simp only [mergeExtractions]
  rw [if_pos h]
  by_cases hc : 2 * (jsSplitWs o).length > 3 * (jsSplitWs t).length ∧ trimLen o > 200
  · rw [if_pos hc, if_pos hc, dedup_eq_specDedup]
  · rw [if_neg hc, if_neg hc]

/-- Witness for the amended C2: a long single-word structured text with an
empty recognition text fails the word-count condition, so the structured
text is returned alone. -/
theorem mergeExtractions_over500_amended_c2_witness :
    mergeExtractions (String.mk (List.replicate 501 'a')) "" =
      String.mk (List.replicate 501 'a') := by
  have h := mergeExtractions_over500_amended_c2
    (String.mk (List.replicate 501 'a')) "" (by decide)
  rw [if_neg (by decide)] at h
  exact h

/-- C5 counterexample: for structured text at most 500 characters the
claim says the source with more content becomes the primary body, but with
a 100-character structured text and a 150-character recognized text (more
content, yet not more than twice the structured length) the code keeps the
structured text as the primary body and appends the recognized text after
the additional-content marker — not the other way around. -/
theorem mergeExtractions_c5_counterexample :
    trimLen (String.mk (List.replicate 100 'b')) ≤ 500 ∧
    trimLen (String.mk (List.replicate 100 'b')) > 0 ∧
    trimLen (String.mk (List.replicate 150 'c')) >
      trimLen (String.mk (List.replicate 100 'b')) ∧
    mergeExtractions (String.mk (List.replicate 100 'b'))
        (String.mk (List.replicate 150 'c')) =
      String.mk (List.replicate 100 'b') ++ additionalContentMarker ++
        String.mk (List.replicate 150 'c') ∧
    mergeExtractions (String.mk (List.replicate 100 'b'))
        (String.mk (List.replicate 150 'c')) ≠
      String.mk (List.replicate 150 'c') ++ additionalContentMarker ++
        String.mk (List.replicate 100 'b') := by
  decide

/-- C5 amended: for structured text of trimmed length at most 500, when
both sources are non-empty the recognized text becomes the primary body
only when its length exceeds twice the structured length — otherwise the
structured text stays primary even when the recognized text is longer —
and the other source's unique paragraphs are appended per `specDedup`;
when exactly one source is non-empty it is returned verbatim; when both
are empty the explicit no-content placeholder is returned. -/
theorem mergeExtractions_upTo500_amended_c5 (t o : String) (h : trimLen t ≤ 500) :
    mergeExtractions t o =
      if trimLen t > 0 ∧ trimLen o > 0 then
        (if trimLen o > 2 * trimLen t then specDedup o t else specDedup t o)
      else if trimLen o > 0 then o
      else if trimLen t > 0 then t
      else noContentPlaceholder := by
  simp only [mergeExtractions]
  rw [if_neg (by omega)]
  by_cases hb : trimLen t > 0 ∧ trimLen o > 0
  · rw [if_pos hb, if_pos hb]
    by_cases hc : trimLen o > 2 * trimLen t
    · rw [if_pos hc, if_pos hc, dedup_eq_specDedup]
    · rw [if_neg hc, if_neg hc, dedup_eq_specDedup]
  · rw [if_neg hb, if_neg hb]

/-- Witness for the amended C5: two empty extractions produce the
placeholder, and a lone structured text is returned verbatim. -/
theorem mergeExtractions_upTo500_amended_c5_witness :
    mergeExtractions "" "" = noContentPlaceholder ∧
    mergeExtractions "hello world" "" = "hello world" := by
  constructor
  · have h := mergeExtractions_upTo500_amended_c5 "" "" (by decide)
    rw [if_neg (by decide), if_neg (by decide), if_neg (by decide)] at h
    exact h
  · have h := mergeExtractions_upTo500_amended_c5 "hello world" "" (by decide)
    rw [if_neg (by decide), if_neg (by decide), if_pos (by decide)] at h
    exact h

theorem lowerChar_toNat_of_upper {c : Char} (h : 65 ≤ c.toNat ∧ c.toNat ≤ 90) :
    (lowerChar c).toNat = c.toNat + 32 := by
  unfold lowerChar
  rw [if_pos h]
  have hv : (c.toNat + 32).isValidChar := Or.inl (by omega)
  simp only [Char.ofNat, hv, dite_true, reduceDIte]
  rfl

theorem lowerChar_idem (c : Char) : lowerChar (lowerChar c) = lowerChar c := by
  by_cases h : 65 ≤ c.toNat ∧ c.toNat ≤ 90
  · have ht : (lowerChar c).toNat = c.toNat + 32 := lowerChar_toNat_of_upper h
    nth_rewrite 1 [lowerChar]
    rw [if_neg (by rw [ht]; omega)]
  · have hc : lowerChar c = c := by
      unfold lowerChar
      rw [if_neg h]
    rw [hc, hc]

theorem strLower_idem (s : String) : strLower (strLower s) = strLower s := by
  unfold strLower
  show String.mk ((s.data.map lowerChar).map lowerChar) = _
  rw [List.map_map]
  congr 1
  exact List.map_congr_left (fun c _ => lowerChar_idem c)

theorem head?_dropWhile_false {p : α → Bool} {l : List α} {a : α}
    (h : (l.dropWhile p).head? = some a) : p a = false := by
  induction l with
  | nil => simp [List.dropWhile] at h
  | cons b t ih =>
    by_cases hb : p b
    · rw [List.dropWhile_cons, if_pos hb] at h
      exact ih h
    · rw [List.dropWhile_cons, if_neg hb] at h
      simp only [List.head?_cons, Option.some.injEq] at h
      rw [← h]
      exact Bool.not_eq_true _ ▸ (by simpa using hb)

theorem normalizePathname_no_slash (p : String) :
    normalizePathname p = "/" ∨ (normalizePathname p).data.getLast? ≠ some '/' := by
  unfold normalizePathname
  by_cases h1 : p = "/"
  · rw [if_pos h1]
    left
    exact h1
  · rw [if_neg h1]
    by_cases h2 : stripTrailingSlashes p = ""
    · rw [if_pos h2]
      left
      rfl
    · rw [if_neg h2]
      right
      intro hl
      have hrev : ((p.data.reverse.dropWhile (fun c => c = '/')).reverse).getLast? =
          some '/' := hl
      rw [List.getLast?_reverse] at hrev
      have := head?_dropWhile_false hrev
      simp at this

theorem sanitizeUrlCore_shape {raw : String} {u : JsUrl}
    (h : sanitizeUrlCore raw = some u) :
    ∃ parsed, jsUrlParse (resolveSchemeRelative (jsTrim raw)) = some parsed ∧
      u = { parsed with hash := "", pathname := normalizePathname parsed.pathname } := by
  unfold sanitizeUrlCore at h
  split at h
  · exact absurd h (by simp)
  · split at h
    · exact absurd h (by simp)
    · split at h
      · exact absurd h (by simp)
      · split at h
        · exact absurd h (by simp)
        · next parsed hp =>
          exact ⟨parsed, hp, by injection h with h2; rw [h2]⟩

theorem jsUrlParse_host_lower {t : String} {parsed : JsUrl}
    (h : jsUrlParse t = some parsed) : strLower parsed.host = parsed.host := by
  unfold jsUrlParse at h
  dsimp only at h
  split at h
  · exact absurd h (by simp)
  · split at h
    · exact absurd h (by simp)
    · injection h with h2
      rw [← h2]
      exact strLower_idem _

/-- C3 counterexample: `sanitizeUrl` does not behave as the claim states.
For `"https://Example.com/foo//"` the code strips BOTH trailing slashes
(the claim says a single one) and lower-cases the host in the stored
display URL (the claim says the display form preserves the original case).
In addition `"https://"` (scheme is https) and `"http:example.com"`
(scheme is http, but not followed by `//`) are rejected although the
claim's rejection list does not cover them. -/
theorem sanitizeUrl_c3_counterexample :
    sanitizeUrl "https://Example.com/foo//" =
      some { key := "https://example.com/foo", href := "https://example.com/foo" } ∧
    (sanitizeUrl "https://Example.com/foo//").map (fun su => su.href) ≠
      some "https://Example.com/foo/" ∧
    (sanitizeUrl "https://Example.com/foo//").map (fun su => su.href) ≠
      some "https://example.com/foo/" ∧
    sanitizeUrl "https://" = none ∧
    sanitizeUrl "http:example.com" = none := by
  decide

/-- C3 amended: a raw result URL is rejected exactly when it is empty or
whitespace-only, lacks an `http://` or `https://` prefix (up to letter
case, after resolving a scheme-relative `//` prefix to `https`), or fails
to parse as a URL (empty host); an accepted URL's stored display form is
the serialization of the normalized URL object, which has the fragment
stripped, ALL trailing slashes stripped from a non-root path, and the
scheme and host (only) case-folded, while the dedup key is the fully
lower-cased display form. -/
theorem sanitizeUrl_amended_c3 (raw : String) :
    (sanitizeUrl raw = none ↔
      jsTrim raw = "" ∨
        httpSchemeTest (resolveSchemeRelative (jsTrim raw)) = false ∨
        jsUrlParse (resolveSchemeRelative (jsTrim raw)) = none) ∧
    (∀ su, sanitizeUrl raw = some su →
      ∃ u, sanitizeUrlCore raw = some u ∧
        su.href = urlToString u ∧
        su.key = strLower su.href ∧
        u.hash = "" ∧
        (u.pathname = "/" ∨ u.pathname.data.getLast? ≠ some '/') ∧
        strLower u.host = u.host) := by
  constructor
  · unfold sanitizeUrl sanitizeUrlCore
    by_cases h0 : raw = ""
    · subst h0
      simp [show jsTrim "" = "" from rfl]
    · by_cases h1 : jsTrim raw = ""
      · simp [h0, h1]
      · by_cases h2 : httpSchemeTest (resolveSchemeRelative (jsTrim raw))
        · cases h3 : jsUrlParse (resolveSchemeRelative (jsTrim raw)) with
          | none => simp [h0, h1, h2, h3]
          | some u => simp [h0, h1, h2, h3]
        · simp [h0, h1, h2]
  · intro su hsu
    cases hc : sanitizeUrlCore raw with
    | none =>
      rw [sanitizeUrl, hc] at hsu
      exact absurd hsu (by simp)
    | some u =>
      rw [sanitizeUrl, hc] at hsu
      simp only [Option.map_some'] at hsu
      injection hsu with h2
      subst h2
      rcases sanitizeUrlCore_shape hc with ⟨parsed, hp, hu⟩
      refine ⟨u, rfl, rfl, rfl, ?_, ?_, ?_⟩
      · rw [hu]
      · rw [hu]
        exact normalizePathname_no_slash parsed.pathname
      · have hh : u.host = parsed.host := by rw [hu]
        rw [hh]
        exact jsUrlParse_host_lower hp

/-- Witness for the amended C3 at `"https://Example.com/a/"`: the accepted
URL's normalized object satisfies all the listed properties, with display
form `"https://example.com/a"`. -/
theorem sanitizeUrl_amended_c3_witness :
    ∃ u, sanitizeUrlCore "https://Example.com/a/" = some u ∧
      ({ key := "https://example.com/a", href := "https://example.com/a" } :
        SanitizedUrl).href = urlToString u ∧
      ({ key := "https://example.com/a", href := "https://example.com/a" } :
        SanitizedUrl).key =
        strLower ({ key := "https://example.com/a", href := "https://example.com/a" } :
          SanitizedUrl).href ∧
      u.hash = "" ∧
      (u.pathname = "/" ∨ u.pathname.data.getLast? ≠ some '/') ∧
      strLower u.host = u.host :=
  (sanitizeUrl_amended_c3 "https://Example.com/a/").2
    { key := "https://example.com/a", href := "https://example.com/a" } (by decide)

/-- C4: two search results from distinct adapters whose URLs sanitize to
the same dedup key merge into exactly one `AggregatedResult` whose
`sources` lists each adapter exactly once in arrival order, whose `url` is
the first result's display href, and whose title and snippet are each the
first non-empty value seen (an existing non-empty field is never
overwritten). -/
theorem mergeResult_dedup_c4 (r1 r2 : SearchResult) (s1 s2 : String)
    (u1 u2 : SanitizedUrl) (hne : s1 ≠ s2)
    (h1 : sanitizeUrl r1.url = some u1) (h2 : sanitizeUrl r2.url = some u2)
    (hk : u2.key = u1.key) :
    mergeResult (mergeResult [] r1 s1) r2 s2 =
      [(u1.key,
        { title := if r1.title = "" ∧ r2.title ≠ "" then r2.title else r1.title,
          url := u1.href,
          snippet := if r1.snippet = "" ∧ r2.snippet ≠ "" then r2.snippet else r1.snippet,
          sources := [s1, s2] })] := by
  have hne2 : ¬ (s2 = s1) := fun h => hne h.symm
  by_cases et1 : r1.title = "" <;> by_cases et2 : r2.title = "" <;>
    by_cases es1 : r1.snippet = "" <;> by_cases es2 : r2.snippet = "" <;>
      simp_all [mergeResult, accGet, accUpdate, freshRecord, updateExisting]

/-- Witness for C4, matching the spec's backfill test: result A with empty
title and snippet "x" from engine1 merged with result B with title "T" and
snippet "y" from engine2 for URLs that sanitize to the same key yields one
record with title "T", snippet "x" and sources [engine1, engine2]. -/
theorem mergeResult_dedup_c4_witness :
    mergeResult (mergeResult [] { title := "", url := "https://Example.com/a", snippet := "x" }
        "engine1")
      { title := "T", url := "https://example.com/a/", snippet := "y" } "engine2" =
      [("https://example.com/a",
        { title := if ("" : String) = "" ∧ ("T" : String) ≠ "" then "T" else "",
          url := "https://example.com/a",
          snippet := if ("x" : String) = "" ∧ ("y" : String) ≠ "" then "y" else "x",
          sources := ["engine1", "engine2"] })] :=
  mergeResult_dedup_c4
    { title := "", url := "https://Example.com/a", snippet := "x" }
    { title := "T", url := "https://example.com/a/", snippet := "y" }
    "engine1" "engine2"
    { key := "https://example.com/a", href := "https://example.com/a" }
    { key := "https://example.com/a", href := "https://example.com/a" }
    (by decide) (by decide) (by decide) (by decide)

theorem updateExisting_url (e : AggregatedResult) (r : SearchResult) (n : String) :
    (updateExisting e r n).url = e.url := by
  by_cases h1 : n ∈ e.sources <;> by_cases h2 : e.snippet = "" <;>
    by_cases h3 : r.snippet = "" <;> by_cases h4 : e.title = "" <;>
      by_cases h5 : r.title = "" <;>
        simp [updateExisting, h1, h2, h3, h4, h5]

theorem updateExisting_title (e : AggregatedResult) (r : SearchResult) (n : String) :
    (updateExisting e r n).title =
      if e.title = "" ∧ r.title ≠ "" then r.title else e.title := by
  by_cases h1 : n ∈ e.sources <;> by_cases h2 : e.snippet = "" <;>
    by_cases h3 : r.snippet = "" <;> by_cases h4 : e.title = "" <;>
      by_cases h5 : r.title = "" <;>
        simp [updateExisting, h1, h2, h3, h4, h5]

theorem updateExisting_snippet (e : AggregatedResult) (r : SearchResult) (n : String) :
    (updateExisting e r n).snippet =
      if e.snippet = "" ∧ r.snippet ≠ "" then r.snippet else e.snippet := by
  by_cases h1 : n ∈ e.sources <;> by_cases h2 : e.snippet = "" <;>
    by_cases h3 : r.snippet = "" <;> by_cases h4 : e.title = "" <;>
      by_cases h5 : r.title = "" <;>
        simp [updateExisting, h1, h2, h3, h4, h5]

theorem updateExisting_sources (e : AggregatedResult) (r : SearchResult) (n : String) :
    (updateExisting e r n).sources =
      if e.sources.contains n then e.sources else e.sources ++ [n] := by
  by_cases h1 : n ∈ e.sources <;> by_cases h2 : e.snippet = "" <;>
    by_cases h3 : r.snippet = "" <;> by_cases h4 : e.title = "" <;>
      by_cases h5 : r.title = "" <;>
        simp [updateExisting, h1, h2, h3, h4, h5]

theorem firstNonEmpty_cons (x : String) (xs : List String) :
    firstNonEmpty (x :: xs) = if x = "" then firstNonEmpty xs else x := by
  by_cases h : x = "" <;> simp [firstNonEmpty, List.find?_cons, h]

theorem accGet_append_one (acc : AccMap) (k : String) (v : AggregatedResult)
    (key : String) (h : accGet acc key = none) :
    accGet (acc ++ [(k, v)]) key = if k = key then some v else none := by
  induction acc with
  | nil =>
    by_cases hk : k = key <;> simp [accGet, List.find?_cons, hk]
  | cons p t ih =>
    unfold accGet at h ⊢
    by_cases hp : (p.1 == key) = true
    · rw [@List.find?_cons_of_pos _ (fun q => q.1 == key) p t hp] at h
      simp at h
    · rw [List.cons_append]
      rw [@List.find?_cons_of_neg _ (fun q => q.1 == key) p (t ++ [(k, v)]) hp]
      rw [@List.find?_cons_of_neg _ (fun q => q.1 == key) p t hp] at h
      exact ih h

theorem accGet_update_self (acc : AccMap) (k : String) (v : AggregatedResult)
    (h : (accGet acc k).isSome) :
    accGet (accUpdate acc k v) k = some v := by
  induction acc with
  | nil => simp [accGet] at h
  | cons p t ih =>
    unfold accGet accUpdate at *
    by_cases hp : (p.1 == k) = true
    · simp only [List.map_cons, if_pos hp]
      rw [@List.find?_cons_of_pos _ (fun q => q.1 == k) (p.1, v)
        (t.map (fun q => if q.1 == k then (q.1, v) else q)) hp]
      rfl
    · simp only [List.map_cons, if_neg hp]
      rw [@List.find?_cons_of_neg _ (fun q => q.1 == k) p
        (t.map (fun q => if q.1 == k then (q.1, v) else q)) hp]
      rw [@List.find?_cons_of_neg _ (fun q => q.1 == k) p t hp] at h
      exact ih h

theorem accGet_update_other (acc : AccMap) (k : String) (v : AggregatedResult)
    (key : String) (hne : key ≠ k) :
    accGet (accUpdate acc k v) key = accGet acc key := by
  induction acc with
  | nil => rfl
  | cons p t ih =>
    unfold accGet accUpdate at *
    by_cases hp : (p.1 == k) = true
    · have hp2 : ((p.1, v).1 == key) = false := by
        have hp3 : p.1 = k := by simpa using hp
        show (p.1 == key) = false
        rw [hp3]
        exact beq_eq_false_iff_ne.mpr (fun h => hne h.symm)
      have hp2' : (p.1 == key) = false := hp2
      simp only [List.map_cons, if_pos hp]
      rw [@List.find?_cons_of_neg _ (fun q => q.1 == key) (p.1, v)
        (t.map (fun q => if q.1 == k then (q.1, v) else q)) (by simp [hp2])]
      rw [@List.find?_cons_of_neg _ (fun q => q.1 == key) p t (by simp [hp2'])]
      exact ih
    · simp only [List.map_cons, if_neg hp]
      by_cases hq : (p.1 == key) = true
      · rw [@List.find?_cons_of_pos _ (fun q => q.1 == key) p
          (t.map (fun q => if q.1 == k then (q.1, v) else q)) hq]
        rw [@List.find?_cons_of_pos _ (fun q => q.1 == key) p t hq]
      · rw [@List.find?_cons_of_neg _ (fun q => q.1 == key) p
          (t.map (fun q => if q.1 == k then (q.1, v) else q)) hq]
        rw [@List.find?_cons_of_neg _ (fun q => q.1 == key) p t hq]
        exact ih

theorem accGet_append_one_other (acc : AccMap) (k : String) (v : AggregatedResult)
    (key : String) (hne : ¬ k = key) :
    accGet (acc ++ [(k, v)]) key = accGet acc key := by
  induction acc with
  | nil =>
    unfold accGet
    rw [List.nil_append]
    rw [@List.find?_cons_of_neg _ (fun q => q.1 == key) (k, v) []
      (by simp [beq_eq_false_iff_ne.mpr hne])]
  | cons p t ih =>
    unfold accGet at ih ⊢
    rw [List.cons_append]
    by_cases hp : (p.1 == key) = true
    · rw [@List.find?_cons_of_pos _ (fun q => q.1 == key) p (t ++ [(k, v)]) hp]
      rw [@List.find?_cons_of_pos _ (fun q => q.1 == key) p t hp]
    · rw [@List.find?_cons_of_neg _ (fun q => q.1 == key) p (t ++ [(k, v)]) hp]
      rw [@List.find?_cons_of_neg _ (fun q => q.1 == key) p t hp]
      exact ih

theorem accGet_mergeResult (acc : AccMap) (r : SearchResult) (n : String) (key : String) :
    accGet (mergeResult acc r n) key =
      match sanitizeUrl r.url with
      | none => accGet acc key
      | some su =>
        if su.key = key then
          some (match accGet acc key with
                | some e => updateExisting e r n
                | none => freshRecord su r n)
        else accGet acc key := by
  cases hs : sanitizeUrl r.url with
  | none =>
    unfold mergeResult
    rw [hs]
  | some su =>
    unfold mergeResult
    rw [hs]
    dsimp only
    by_cases hk : su.key = key
    · subst hk
      rw [if_pos rfl]
      cases he : accGet acc su.key with
      | some e =>
        dsimp only
        exact accGet_update_self acc su.key _ (by rw [he]; rfl)
      | none =>
        dsimp only
        rw [accGet_append_one acc su.key _ su.key he, if_pos rfl]
    · rw [if_neg hk]
      cases he : accGet acc su.key with
      | some e =>
        dsimp only
        exact accGet_update_other acc su.key _ key (fun h => hk h.symm)
      | none =>
        dsimp only
        exact accGet_append_one_other acc su.key _ key hk

theorem insertPairs_get (ps : List (SearchResult × String)) (acc : AccMap) (key : String) :
    accGet (insertPairs acc ps) key =
      (matchingPairs key ps).foldl applyPair (accGet acc key) := by
  induction ps generalizing acc with
  | nil => rfl
  | cons p ps ih =>
    obtain ⟨r, n⟩ := p
    show accGet (insertPairs (mergeResult acc r n) ps) key = _
    rw [ih]
    have hmr := accGet_mergeResult acc r n key
    cases hs : sanitizeUrl r.url with
    | none =>
      rw [hs] at hmr
      dsimp only at hmr
      have hm : matchingPairs key ((r, n) :: ps) = matchingPairs key ps := by
        unfold matchingPairs
        rw [List.filter_cons]
        simp [hs]
      rw [hm, hmr]
    | some su =>
      rw [hs] at hmr
      dsimp only at hmr
      by_cases hk : su.key = key
      · have hm : matchingPairs key ((r, n) :: ps) = (r, n) :: matchingPairs key ps := by
          unfold matchingPairs
          rw [List.filter_cons]
          simp [hs, hk]
        rw [hm, List.foldl_cons]
        rw [if_pos hk] at hmr
        rw [hmr]
        have hap : applyPair (accGet acc key) (r, n) =
            some (match accGet acc key with
                  | some e => updateExisting e r n
                  | none => freshRecord su r n) := by
          unfold applyPair
          rw [hs]
        rw [hap]
      · have hm : matchingPairs key ((r, n) :: ps) = matchingPairs key ps := by
          unfold matchingPairs
          rw [List.filter_cons]
          simp [hs, hk]
        rw [if_neg hk] at hmr
        rw [hm, hmr]

theorem foldl_applyPair_char (l : List (SearchResult × String)) (e : AggregatedResult)
    (h : ∀ p ∈ l, (sanitizeUrl p.1.url).isSome) :
    l.foldl applyPair (some e) = some
      { title := if e.title = "" then firstNonEmpty (l.map (fun p => p.1.title)) else e.title,
        url := e.url,
        snippet :=
          if e.snippet = "" then firstNonEmpty (l.map (fun p => p.1.snippet)) else e.snippet,
        sources := dedupSources e.sources (l.map (fun p => p.2)) } := by
  induction l generalizing e with
  | nil =>
    obtain ⟨et, eu, es, esr⟩ := e
    by_cases h4 : et = "" <;> by_cases h5 : es = "" <;>
      simp [firstNonEmpty, dedupSources, h4, h5]
  | cons p l ih =>
    obtain ⟨r, n⟩ := p
    obtain ⟨su, hsu⟩ :=
      Option.isSome_iff_exists.mp (h (r, n) (List.mem_cons_self _ _))
    have hap : applyPair (some e) (r, n) = some (updateExisting e r n) := by
      unfold applyPair
      rw [hsu]
    rw [List.foldl_cons, hap, ih _ (fun q hq => h q (List.mem_cons_of_mem _ hq))]
    simp only [Option.some.injEq, AggregatedResult.mk.injEq, List.map_cons]
    refine ⟨?_, updateExisting_url e r n, ?_, ?_⟩
    · rw [updateExisting_title, firstNonEmpty_cons]
      by_cases he : e.title = "" <;> by_cases hr : r.title = "" <;>
        simp [he, hr]
    · rw [updateExisting_snippet, firstNonEmpty_cons]
      by_cases he : e.snippet = "" <;> by_cases hr : r.snippet = "" <;>
        simp [he, hr]
    · rw [updateExisting_sources]
      conv_rhs => rw [dedupSources]

theorem insertPairs_append (acc : AccMap) (l1 l2 : List (SearchResult × String)) :
    insertPairs acc (l1 ++ l2) = insertPairs (insertPairs acc l1) l2 := by
  induction l1 generalizing acc with
  | nil => rfl
  | cons p l ih =>
    obtain ⟨r, n⟩ := p
    exact ih (mergeResult acc r n)

theorem runEngines_errs (outcome : String → EngineOutcome) (acc : AccMap)
    (errs : List String) (names : List String) :
    (runEngines outcome acc errs names).2 =
      errs ++ names.filterMap (engineErrorEntry outcome) := by
  induction names generalizing acc errs with
  | nil => simp [runEngines]
  | cons n ns ih =>
    cases ho : outcome n with
    | ok rs => simp [runEngines, ho, ih, engineErrorEntry, List.filterMap_cons]
    | error m => simp [runEngines, ho, ih, engineErrorEntry, List.filterMap_cons]

theorem runEngines_acc (outcome : String → EngineOutcome) (acc : AccMap)
    (errs : List String) (names : List String) :
    (runEngines outcome acc errs names).1 =
      insertPairs acc (incomingPairsOver outcome names) := by
  induction names generalizing acc errs with
  | nil => rfl
  | cons n ns ih =>
    cases ho : outcome n with
    | ok rs =>
      have hstep : incomingPairsOver outcome (n :: ns) =
          rs.map (fun r => (r, n)) ++ incomingPairsOver outcome ns := by
        unfold incomingPairsOver
        rw [List.foldr_cons, ho]
      simp only [runEngines, ho]
      rw [hstep, insertPairs_append]
      exact ih _ _
    | error m =>
      have hstep : incomingPairsOver outcome (n :: ns) = incomingPairsOver outcome ns := by
        unfold incomingPairsOver
        rw [List.foldr_cons, ho, List.nil_append]
      simp only [runEngines, ho]
      rw [hstep]
      exact ih _ _

theorem runEngines_congr (f g : String → EngineOutcome) (acc : AccMap)
    (errs : List String) (names : List String) (h : ∀ n ∈ names, f n = g n) :
    runEngines f acc errs names = runEngines g acc errs names := by
  induction names generalizing acc errs with
  | nil => rfl
  | cons n ns ih =>
    have hn := h n (List.mem_cons_self _ _)
    simp only [runEngines]
    rw [hn]
    cases g n with
    | ok rs => exact ih _ _ (fun m hm => h m (List.mem_cons_of_mem _ hm))
    | error m => exact ih _ _ (fun m2 hm => h m2 (List.mem_cons_of_mem _ hm))

/-- C7: the aggregate search operation is total over any combination of
adapter outcomes (the model is a total function, mirroring the per-engine
try/catch): each failing adapter contributes exactly its
`name + ": " + message` entry to the error list in registration order, the
results are the merge of exactly the successful adapters' result pairs
(failures contribute nothing and do not stop the others), and an empty
result list together with a non-empty error list is an attainable, normal
outcome. -/
theorem searchAllEngines_error_isolation_c7 :
    (∀ outcome : String → EngineOutcome,
      (searchAllEngines outcome).engineErrors =
        engineNames.filterMap (engineErrorEntry outcome) ∧
      (searchAllEngines outcome).results =
        (insertPairs [] (incomingPairs outcome)).map (fun p => p.2)) ∧
    (∃ outcome : String → EngineOutcome,
      (searchAllEngines outcome).results = [] ∧
      (searchAllEngines outcome).engineErrors ≠ []) := by
  constructor
  · intro outcome
    constructor
    · show (runEngines outcome [] [] engineNames).2 = _
      rw [runEngines_errs]
      rfl
    · show ((runEngines outcome [] [] engineNames).1).map (fun p => p.2) = _
      rw [runEngines_acc]
      rfl
  · refine ⟨fun _ => Except.error "network unreachable", by decide, by decide⟩

/-- C10: the aggregator consults its adapters in the fixed registration
order AOL, Brave, Bing, DuckDuckGo, Yahoo, Startpage, Yandex; the
aggregation is a pure function of the per-adapter outputs (two runs whose
outcomes agree on the seven registered names produce identical
`AggregatedSearch` values, insertion order and all); and every merged
record's title and snippet are the first non-empty value among the
matching incoming results in that fixed order, its sources list is the
registration-ordered first-occurrence dedup of the contributing adapter
names, and its display URL comes from the first matching incoming result —
so the first-writer-wins tie-break is deterministic with precedence given
by the registration order. -/
theorem searchAllEngines_deterministic_c10 :
    engineNames = ["AOL", "Brave", "Bing", "DuckDuckGo", "Yahoo", "Startpage", "Yandex"] ∧
    (∀ f g : String → EngineOutcome, (∀ n ∈ engineNames, f n = g n) →
      searchAllEngines f = searchAllEngines g) ∧
    (∀ (f : String → EngineOutcome) (key : String) (rec : AggregatedResult),
      accGet (runEngines f [] [] engineNames).1 key = some rec →
      rec.title =
        firstNonEmpty ((matchingPairs key (incomingPairs f)).map (fun p => p.1.title)) ∧
      rec.snippet =
        firstNonEmpty ((matchingPairs key (incomingPairs f)).map (fun p => p.1.snippet)) ∧
      rec.sources =
        dedupSources [] ((matchingPairs key (incomingPairs f)).map (fun p => p.2)) ∧
      (∃ p rest su, matchingPairs key (incomingPairs f) = p :: rest ∧
        sanitizeUrl p.1.url = some su ∧ rec.url = su.href)) := by
  refine ⟨rfl, ?_, ?_⟩
  · intro f g hagree
    unfold searchAllEngines
    rw [runEngines_congr f g [] [] engineNames hagree]
  · intro f key rec hrec
    rw [runEngines_acc f [] [] engineNames] at hrec
    rw [show incomingPairsOver f engineNames = incomingPairs f from rfl] at hrec
    rw [insertPairs_get] at hrec
    cases hm : matchingPairs key (incomingPairs f) with
    | nil =>
      rw [hm] at hrec
      exact absurd hrec (by simp [accGet])
    | cons p rest =>
      rw [hm] at hrec
      obtain ⟨r, n⟩ := p
      have hpm : ((sanitizeUrl r.url).map (fun su => su.key) == some key) = true := by
        have hin : (r, n) ∈ matchingPairs key (incomingPairs f) := by
          rw [hm]
          exact List.mem_cons_self _ _
        exact (List.mem_filter.mp hin).2
      have hall : ∀ q ∈ rest, (sanitizeUrl q.1.url).isSome := by
        intro q hq
        have hin : q ∈ matchingPairs key (incomingPairs f) := by
          rw [hm]
          exact List.mem_cons_of_mem _ hq
        have hpred := (List.mem_filter.mp hin).2
        cases hs2 : sanitizeUrl q.1.url with
        | none =>
          rw [hs2] at hpred
          simp at hpred
        | some _ => rfl
      cases hs : sanitizeUrl r.url with
      | none =>
        rw [hs] at hpm
        simp at hpm
      | some su =>
        have hap : applyPair (accGet ([] : AccMap) key) (r, n) =
            some (freshRecord su r n) := by
          unfold applyPair
          rw [hs]
          rfl
        rw [List.foldl_cons, hap, foldl_applyPair_char rest (freshRecord su r n) hall]
          at hrec
        injection hrec with hrec
        subst hrec
        refine ⟨?_, ?_, ?_, (r, n), rest, su, rfl, hs, rfl⟩
        · simp only [List.map_cons]
          rw [firstNonEmpty_cons]
          rfl
        · simp only [List.map_cons]
          rw [firstNonEmpty_cons]
          rfl
        · simp only [List.map_cons]
          conv_rhs => rw [dedupSources]
          rfl

/-- Witness for C10: the sample outcome assignments agree on the seven
registered engines and produce identical aggregates, and the merged
record's title for the shared key is the first non-empty title in
registration order (AOL's "T1", not Brave's "T2"). -/
theorem searchAllEngines_deterministic_c10_witness :
    searchAllEngines sampleOutcomeA = searchAllEngines sampleOutcomeB ∧
    ({ title := "T1", url := "https://a.com/x", snippet := "s2",
       sources := ["AOL", "Brave"] } : AggregatedResult).title =
      firstNonEmpty ((matchingPairs "https://a.com/x" (incomingPairs sampleOutcomeA)).map
        (fun p => p.1.title)) := by
  constructor
  · exact searchAllEngines_deterministic_c10.2.1 sampleOutcomeA sampleOutcomeB (by decide)
  · exact (searchAllEngines_deterministic_c10.2.2 sampleOutcomeA "https://a.com/x"
      { title := "T1", url := "https://a.com/x", snippet := "s2",
        sources := ["AOL", "Brave"] }
      (by decide)).1

/-- Witness for C7: with only Bing failing, the error list is exactly its
`name: message` entry and the aggregation completes normally. -/
theorem searchAllEngines_error_isolation_c7_witness :
    (searchAllEngines (fun n =>
      if n = "Bing" then Except.error "rate limited"
      else Except.ok [])).engineErrors = ["Bing: rate limited"] := by
  rw [(searchAllEngines_error_isolation_c7.1 _).1]
  decide
